import Mathlib

/-!
Shallow embedding of the `use-record-set` runtime (src/index.ts).

A record in the store is a plain JS object `{ type, id, ...fields }` where
`type` and `id` are the (always present, string-valued) tag and identifier
required by the library's `Record` type, and every other property holds a
scalar value or an array of identifier strings.  We model the two tag
properties as dedicated structure fields and the remaining properties as an
association list, mirroring the declared TypeScript type
`{ type: string; id: string; [key: string]: string | number | boolean | Array<string> }`.
Numbers are modelled as integers: no claim depends on float arithmetic.
-/

/-- Runtime value of a non-tag record property. -/
inductive Value where
  | str : String → Value
  | num : Int → Value
  | bool : Bool → Value
  | arr : List String → Value
deriving DecidableEq, Repr

/-- A record of the store: tag, identifier and the remaining properties in
object order. -/
structure Rec where
  type : String
  id : String
  fields : List (String × Value)
deriving DecidableEq, Repr

/-- Default record used with `List.getD`. -/
def dRec : Rec := ⟨"", "", []⟩

/-- Property read (`record[key]`): first entry with the key, `none` when the
property is absent (JS `undefined`). -/
def getF : List (String × Value) → String → Option Value
  | [], _ => none
  | (k', v) :: rest, k => if k' = k then some v else getF rest k

/-- Property write (`record[key] = v`): replaces the entry in place, appending
when the key is new, as JS assignment does. -/
def setF : List (String × Value) → String → Value → List (String × Value)
  | [], k, v => [(k, v)]
  | (k', v') :: rest, k, v =>
    if k' = k then (k, v) :: rest else (k', v') :: setF rest k v

/-- Property deletion (`delete record[key]`). -/
def delF (l : List (String × Value)) (k : String) : List (String × Value) :=
  l.filter (fun p => decide (p.1 ≠ k))

/-- `record[f]` on a record. -/
def rGet (r : Rec) (f : String) : Option Value := getF r.fields f

/-- `record[f] = v` on a record. -/
def rSet (r : Rec) (f : String) (v : Value) : Rec :=
  { r with fields := setF r.fields f v }

/-- `delete record[f]` on a record. -/
def rDel (r : Rec) (f : String) : Rec :=
  { r with fields := delF r.fields f }

/-!
`setFirst p g l` mutates the first element of `l` satisfying `p` in place,
modelling the JS pattern of `find`-ing a record object in `this.records` and
assigning to its properties.
-/

/-- Replace the first element satisfying `p` by its image under `g`. -/
def setFirst (p : Rec → Bool) (g : Rec → Rec) : List Rec → List Rec
  | [] => []
  | x :: xs => if p x then g x :: xs else x :: setFirst p g xs

/-! ## Declarative schema (the `Schema` / `SchemaField` TypeScript types) -/

/-- ForeignKey cardinality. -/
inductive Card where
  | oneToOne | oneToMany | manyToMany | manyToOne
deriving DecidableEq, Repr

/-- A declared field (`SchemaField`): scalar tags, a foreign key with its
cardinality, or an inverse view of one or several foreign keys. -/
inductive SchemaField where
  | string | number | boolean | date
  | foreignKey : Card → SchemaField
  | inverseSingle : String → String → SchemaField
  | inverseMulti : List (String × String) → SchemaField
deriving DecidableEq, Repr

/-- The declared schema: entity type name to its field declarations, in
declaration order (`meta` names play no role in resolver semantics and are
omitted). -/
abbrev Schema := List (String × List (String × SchemaField))

/-- Association-list lookup (JS object property access by string key). -/
def lookupA {β : Type} : List (String × β) → String → Option β
  | [], _ => none
  | (k, v) :: rest, key => if k = key then some v else lookupA rest key

/-- `schema[type].fields[field]`; `none` models the lookups that make the
mutation resolvers throw (missing type or a field that is not declared). -/
def lookupFieldSpec (schema : Schema) (ty f : String) : Option SchemaField :=
  match lookupA schema ty with
  | none => none
  | some fs => lookupA fs f

/-! ## Relationship Resolver (`resolveInverse*`, lines 590-606) -/

/-- `resolveInverseManyToMany`: all records whose array-valued `field`
contains `id`. -/
def resolveInverseManyToMany (records : List Rec) (field : String) (id : String) :
    List Rec :=
  records.filter (fun r =>
    match rGet r field with
    | some (.arr xs) => decide (id ∈ xs)
    | _ => false)

/-- `resolveInverseManyToOne`: all records whose `field` is (strictly) equal
to `id`. -/
def resolveInverseManyToOne (records : List Rec) (field : String) (id : String) :
    List Rec :=
  records.filter (fun r => decide (rGet r field = some (.str id)))

/-- `resolveInverseOneToOne`: the first record whose `field` equals `id`. -/
def resolveInverseOneToOne (records : List Rec) (field : String) (id : String) :
    Option Rec :=
  records.find? (fun r => decide (rGet r field = some (.str id)))

/-- `resolveInverseOneToMany`: the first record whose array-valued `field`
contains `id`. -/
def resolveInverseOneToMany (records : List Rec) (field : String) (id : String) :
    Option Rec :=
  records.find? (fun r =>
    match rGet r field with
    | some (.arr xs) => decide (id ∈ xs)
    | _ => false)

/-- Shape of a resolved GraphQL field: a single optional node or a list. -/
inductive Resolved where
  | single : Option Rec → Resolved
  | list : List Rec → Resolved
deriving DecidableEq, Repr

/-- The single-source Inverse field resolver (lines 251-281): dispatch on the
source foreign key's cardinality. -/
def resolveInverseSingle (c : Card) (records : List Rec) (srcField : String)
    (id : String) : Resolved :=
  match c with
  | .manyToMany => .list (resolveInverseManyToMany records srcField id)
  | .manyToOne => .list (resolveInverseManyToOne records srcField id)
  | .oneToOne => .single (resolveInverseOneToOne records srcField id)
  | .oneToMany => .single (resolveInverseOneToMany records srcField id)

/-! ## ForeignKey field resolvers (lines 178-195) -/

/-- To-many ForeignKey resolver (`manyToMany`/`oneToMany` declared shape):
maps each stored identifier to the first record with that id; a dangling
identifier yields `none` (JS `undefined`) in the list. A non-array value
resolves to the empty list. -/
def resolveFKMany (store : List Rec) (r : Rec) (f : String) : List (Option Rec) :=
  match rGet r f with
  | some (.arr xs) => xs.map (fun i => store.find? (fun r' => decide (r'.id = i)))
  | _ => []

/-- To-one ForeignKey resolver (`oneToOne`/`manyToOne` declared shape):
`this.records.find((x) => x.id === record[field])`. -/
def resolveFKOne (store : List Rec) (r : Rec) (f : String) : Option Rec :=
  store.find? (fun r' => decide (rGet r f = some (.str r'.id)))

/-! ## Root query resolvers -/

/-- `<singular>(id!)` resolver (line 312): first record with the given id;
the record's `type` tag is not consulted. -/
def singularResolve (store : List Rec) (id : String) : Option Rec :=
  store.find? (fun r => decide (r.id = id))

/-- Modelled from the spec sentence for comparison: the first record matching
both the declared type tag and the id. -/
def singularResolveSpec (ty : String) (store : List Rec) (id : String) : Option Rec :=
  store.find? (fun r => decide (r.type = ty ∧ r.id = id))

/-- JS truthiness of a stored value (`if (record[field])`). -/
def truthy : Value → Bool
  | .str s => decide (s ≠ "")
  | .num n => decide (n ≠ 0)
  | .bool b => b
  | .arr _ => true

/-- Pairs `{source: {id}, target: {id}}` contributed by one record's foreign
key field in the `relationships` root query (lines 419-432): fields with
cardinality `manyToMany` or `manyToOne` are treated as arrays and expanded
element-wise (a non-array value contributes nothing); all other cardinalities
contribute a single pair whose target is the stored value as-is. -/
def fkPairs (c : Card) (f : String) (r : Rec) : List (String × Value) :=
  match rGet r f with
  | none => []
  | some v =>
    if truthy v then
      if c = .manyToMany ∨ c = .manyToOne then
        match v with
        | .arr xs => xs.map (fun x => (r.id, Value.str x))
        | _ => []
      else [(r.id, v)]
    else []

/-- The `relationships` root query resolver (lines 412-437): for every
declared type, every declared ForeignKey field, and every record of that
type, collect the contributed pairs in iteration order. -/
def relationshipsResolve (schema : Schema) (store : List Rec) :
    List (String × Value) :=
  schema.flatMap (fun tf =>
    tf.2.flatMap (fun fs =>
      match fs.2 with
      | .foreignKey c =>
        (store.filter (fun r => decide (r.type = tf.1))).flatMap (fkPairs c fs.1)
      | _ => []))

/-! ## Mutation resolvers -/

/-- Result of a mutation resolver: the store after the call, the value the
resolver returns, and the number of "change" events dispatched. -/
structure MutResult where
  records : List Rec
  returned : Option Rec
  notifs : Nat
deriving DecidableEq, Repr

/-- Predicate used to locate a record object by identifier. -/
def byId (id : String) : Rec → Bool := fun r => decide (r.id = id)

/-- First record with the given id (`this.records.find(({id}) => id === source)`). -/
def findRec (store : List Rec) (id : String) : Option Rec :=
  store.find? (byId id)

/-- Current value of an array field, JS style: `Array.isArray(x) ? x : []`. -/
def curArr (r : Rec) (f : String) : List String :=
  match rGet r f with
  | some (.arr xs) => xs
  | _ => []

/-- The `oneToMany` pre-pass of `addRelationship` (lines 471-480): strip
`target` from the same-named array field of every record whose type equals
the source record's type. -/
def stripOneToMany (ty field tgt : String) (store : List Rec) : List Rec :=
  store.map (fun r =>
    if r.type = ty then
      match rGet r field with
      | some (.arr xs) => rSet r field (.arr (xs.filter (fun x => decide (x ≠ tgt))))
      | _ => r
    else r)

/-- The `oneToOne` pre-pass of `addRelationship` (lines 487-493): delete the
field from every record of the source's type whose field equals `target`. -/
def clearOneToOne (ty field tgt : String) (store : List Rec) : List Rec :=
  store.map (fun r =>
    if r.type = ty ∧ rGet r field = some (.str tgt) then rDel r field else r)

/-- The `addRelationship` mutation resolver (lines 459-498). Errors model the
thrown `Error`s (unknown source record, missing schema entry or a field that
is not a ForeignKey). -/
def addRelationship (schema : Schema) (store : List Rec) (field src tgt : String) :
    Except Unit MutResult :=
  match findRec store src with
  | none => .error ()
  | some sr =>
    match lookupFieldSpec schema sr.type field with
    | some (.foreignKey c) =>
      if c = .manyToMany ∨ c = .oneToMany then
        let store1 := if c = .oneToMany then stripOneToMany sr.type field tgt store else store
        let store2 := setFirst (byId src) (fun r =>
          let cur := curArr r field
          rSet r field (.arr (if tgt ∈ cur then cur else cur ++ [tgt]))) store1
        .ok ⟨store2, findRec store2 src, 1⟩
      else
        let store1 := if c = .oneToOne then clearOneToOne sr.type field tgt store else store
        let store2 := setFirst (byId src) (fun r => rSet r field (.str tgt)) store1
        .ok ⟨store2, findRec store2 src, 1⟩
    | _ => .error ()

/-- The `removeRelationship` mutation resolver (lines 513-533). -/
def removeRelationship (schema : Schema) (store : List Rec) (field src tgt : String) :
    Except Unit MutResult :=
  match findRec store src with
  | none => .error ()
  | some sr =>
    match lookupFieldSpec schema sr.type field with
    | some (.foreignKey c) =>
      if c = .manyToMany ∨ c = .oneToMany then
        let store2 := setFirst (byId src) (fun r =>
          rSet r field (.arr ((curArr r field).filter (fun x => decide (x ≠ tgt))))) store
        .ok ⟨store2, findRec store2 src, 1⟩
      else
        let store2 := setFirst (byId src) (fun r => rDel r field) store
        .ok ⟨store2, findRec store2 src, 1⟩
    | _ => .error ()

/-- Overwrite the supplied argument fields on a record, in order
(`for (let arg in args) updatedRecord[arg] = args[arg]`). -/
def applyArgs (r : Rec) (args : List (String × Value)) : Rec :=
  args.foldl (fun acc kv => rSet acc kv.1 kv.2) r

/-- The `update<Type>` mutation resolver (lines 375-384): find the first
record by id, overwrite the supplied (non-id) arguments in place, dispatch
one "change" event regardless, and return the mutated record (or `none`). -/
def updateMutation : List Rec → String → List (String × Value) → MutResult
  | [], _, _ => ⟨[], none, 1⟩
  | r :: rs, id, args =>
    if r.id = id then
      let r' := applyArgs r args
      ⟨r' :: rs, some r', 1⟩
    else
      let res := updateMutation rs id args
      ⟨r :: res.records, res.returned, 1⟩

/-- The `delete<Type>` mutation resolver (lines 393-398): return the first
record with the id, keep only the records whose id differs, dispatch one
"change" event. -/
def deleteMutation (store : List Rec) (id : String) : MutResult :=
  ⟨store.filter (fun r => decide (r.id ≠ id)), findRec store id, 1⟩

/-! ## UrlPersistence (lines 563-588)

`UrlPersistence.load` parses the URL fragment and validates it with
`isRecordSet` before trusting it.  We model the decoded JSON as an inductive
`Json` and the combination `JSON.parse ∘ fromBase64` (with its try/catch) as
an explicit `parse` oracle returning `none` when either step throws.  JS
member access on `null` throws a `TypeError`, so the shape-check functions
return in `Except Unit`. -/

/-- A decoded JSON value. -/
inductive Json where
  | null
  | bool : Bool → Json
  | num : Int → Json
  | str : String → Json
  | arr : List Json → Json
  | obj : List (String × Json) → Json

/-- JS `typeof` of a defined value (famously, `typeof null === "object"`). -/
def jsTypeof : Json → String
  | .null => "object"
  | .bool _ => "boolean"
  | .num _ => "number"
  | .str _ => "string"
  | .arr _ => "object"
  | .obj _ => "object"

/-- JS property read `v[k]`: throws on `null`, returns the property of an
object, and `undefined` (here `none`) otherwise. -/
def getProp : Json → String → Except Unit (Option Json)
  | .null, _ => .error ()
  | .obj fields, k => .ok ((fields.find? (fun p => decide (p.1 = k))).map (·.2))
  | _, _ => .ok none

/-- `typeof` of a possibly-undefined value. -/
def typeofOpt : Option Json → String
  | none => "undefined"
  | some j => jsTypeof j

/-- `isRecord` (lines 584-585): `typeof value === "object" &&
typeof value.type === "string" && typeof value.id === "string"`, with JS
short-circuiting; evaluating `value.type` on `null` throws. -/
def isRecord (v : Json) : Except Unit Bool :=
  if jsTypeof v ≠ "object" then .ok false
  else do
    let t ← getProp v "type"
    if typeofOpt t ≠ "string" then pure false
    else do
      let i ← getProp v "id"
      pure (decide (typeofOpt i = "string"))

/-- `value.every((record) => isRecord(record))`, short-circuiting on the
first failure and propagating a thrown `TypeError`. -/
def isRecordSetList : List Json → Except Unit Bool
  | [] => .ok true
  | x :: xs => do
    let b ← isRecord x
    if b then isRecordSetList xs else pure false

/-- `isRecordSet` (lines 587-588). -/
def isRecordSet (v : Json) : Except Unit Bool :=
  match v with
  | .arr xs => isRecordSetList xs
  | _ => .ok false

/-- JS truthiness of a decoded JSON value (`persistedRecords && ...`). -/
def truthyJson : Json → Bool
  | .null => false
  | .bool b => b
  | .num n => decide (n ≠ 0)
  | .str s => decide (s ≠ "")
  | .arr _ => true
  | .obj _ => true

/-- Executable model of `String.prototype.trim` / `String.trim`: drop
whitespace from both ends. -/
def trimStr (s : String) : String :=
  ⟨((s.data.dropWhile Char.isWhitespace).reverse.dropWhile Char.isWhitespace).reverse⟩

/-- `UrlPersistence.load` (lines 564-577).  `hash0` is
`window.location.hash.slice(1)` and `parse` models
`JSON.parse(fromBase64(hash))`, returning `none` when that throws (the
caught branch).  The declared TS return type is `Array<Record> | null`,
modelled by `Option (List Json)`. -/
def UrlPersistence.load (hash0 : String) (parse : String → Option Json) :
    Except Unit (Option (List Json)) :=
  let hash := trimStr hash0
  let persisted : Option Json := if hash.length > 0 then parse hash else none
  match persisted with
  | none => .ok (some [])
  | some j =>
    if truthyJson j then do
      let ok? ← isRecordSet j
      if ok? then
        match j with
        | .arr xs => pure (some xs)
        | _ => pure (some [])
      else pure (some [])
    else .ok (some [])

/-- The `RecordSet` constructor's treatment of a persistence adapter's load
result (lines 109-115): `loadedRecords !== null` replaces the configured
initial records. -/
def ctorRecords (init : List Json) (loaded : Option (List Json)) : List Json :=
  match loaded with
  | none => init
  | some l => l

/-- Constructor record state under URL persistence: propagate a throw from
`load`, otherwise apply the non-null check. -/
def urlCtorRecords (init : List Json) (hash0 : String)
    (parse : String → Option Json) : Except Unit (List Json) :=
  match UrlPersistence.load hash0 parse with
  | .error e => .error e
  | .ok loaded => .ok (ctorRecords init loaded)

/-! ## Concrete inputs used to instantiate the results below -/

/-- A schema with one entity type carrying one foreign key per cardinality,
mirroring the `COMPLEX_SCHEMA` of the test suite. -/
def schemaR : Schema :=
  [("Role",
    [("holder", .foreignKey .oneToOne),
     ("lineManager", .foreignKey .manyToOne),
     ("teams", .foreignKey .manyToMany),
     ("kids", .foreignKey .oneToMany)])]

/-- A record whose `manyToOne` field holds "x". -/
def srcX : Rec := ⟨"Role", "s", [("lineManager", Value.str "x")]⟩

/-- A record whose `manyToMany` field already contains "t". -/
def mmRec : Rec := ⟨"Role", "m", [("teams", Value.arr ["t"])]⟩

/-- A record with no fields. -/
def bareW : Rec := ⟨"Role", "w", []⟩

/-- Two records with equal ids but different types. -/
def dupA : Rec := ⟨"A", "x", []⟩

/-- Second record with the duplicated id. -/
def dupB : Rec := ⟨"B", "x", [("n", Value.num 1)]⟩

/-- A record whose to-many field references a missing id. -/
def danglingRec : Rec := ⟨"G", "g1", [("members", Value.arr ["missing"])]⟩

/-- A record of type "B" used to probe the singular query for type "A". -/
def wrongType : Rec := ⟨"B", "x", []⟩

/-- First of two records whose `manyToOne` field points at "t". -/
def holder1 : Rec := ⟨"Role", "r1", [("lineManager", Value.str "t")]⟩

/-- Second of two records whose `manyToOne` field points at "t". -/
def holder2 : Rec := ⟨"Role", "r2", [("lineManager", Value.str "t")]⟩

/-- A schema exercising the `relationships` resolver: one scalar-valued
`manyToOne` field and one array-valued `oneToMany` field. -/
def relSchema : Schema :=
  [("T", [("owner", .foreignKey .manyToOne), ("kids", .foreignKey .oneToMany)])]

/-- Store for the `relationships` resolver probe. -/
def relStore : List Rec :=
  [⟨"T", "a", [("owner", Value.str "b"), ("kids", Value.arr ["c"])]⟩]

/-- Records used by the oneToOne-uniqueness instantiation: a prior holder of
"t" and the new source. -/
def prevHolder : Rec := ⟨"Role", "p", [("holder", Value.str "t")]⟩

/-- New source record for the oneToOne-uniqueness instantiation. -/
def newSource : Rec := ⟨"Role", "q", []⟩

/-- A decode oracle returning a well-formed persisted record set. -/
def parseRecords : String → Option Json :=
  fun _ => some (Json.arr [Json.obj [("type", Json.str "T"), ("id", Json.str "a")]])

/-- A decode oracle returning an array containing `null`. -/
def parseNullElem : String → Option Json :=
  fun _ => some (Json.arr [Json.null])

/-! ## Proofs -/

theorem getF_setF_self (l : List (String × Value)) (k : String) (v : Value) :
    getF (setF l k v) k = some v := by
  induction l with
  | nil => simp [getF, setF]
  | cons p rest ih =>
    by_cases h : p.1 = k <;> simp [getF, setF, h, ih]

theorem getF_setF_ne (l : List (String × Value)) (k k' : String) (v : Value)
    (h : k' ≠ k) : getF (setF l k v) k' = getF l k' := by
  induction l with
  | nil => simp [getF, setF, Ne.symm h]
  | cons p rest ih =>
    obtain ⟨pk, pv⟩ := p
    by_cases hp : pk = k
    · simp [getF, setF, hp, Ne.symm h, h]
    · by_cases hp' : pk = k' <;> simp [getF, setF, hp, hp', h, ih]

theorem getF_delF_self (l : List (String × Value)) (k : String) :
    getF (delF l k) k = none := by
  induction l with
  | nil => simp [getF, delF]
  | cons p rest ih =>
    by_cases h : p.1 = k
    · simpa [delF, h] using ih
    · simpa [delF, getF, h] using ih

theorem setF_eq_of_getF (l : List (String × Value)) (k : String) (v : Value)
    (h : getF l k = some v) : setF l k v = l := by
  induction l with
  | nil => simp [getF] at h
  | cons p rest ih =>
    obtain ⟨pk, pv⟩ := p
    by_cases hp : pk = k
    · simp [getF, hp] at h
      simp [setF, hp, ← h]
    · simp [getF, hp] at h
      simp [setF, hp, ih h]

theorem setF_setF (l : List (String × Value)) (k : String) (v v' : Value) :
    setF (setF l k v) k v' = setF l k v' := by
  induction l with
  | nil => simp [setF]
  | cons p rest ih =>
    by_cases hp : p.1 = k <;> simp [setF, hp, ih]

theorem delF_setF_of_getF_none (l : List (String × Value)) (k : String) (v : Value)
    (h : getF l k = none) : delF (setF l k v) k = l := by
  induction l with
  | nil => simp [setF, delF]
  | cons p rest ih =>
    obtain ⟨pk, pv⟩ := p
    by_cases hp : pk = k
    · simp [getF, hp] at h
    · simp [getF, hp] at h
      simpa [delF, setF, hp] using ih h

theorem rGet_rSet_self (r : Rec) (f : String) (v : Value) :
    rGet (rSet r f v) f = some v := getF_setF_self r.fields f v

theorem rGet_rDel_self (r : Rec) (f : String) :
    rGet (rDel r f) f = none := getF_delF_self r.fields f

theorem rSet_eq_of_rGet (r : Rec) (f : String) (v : Value)
    (h : rGet r f = some v) : rSet r f v = r := by
  simp [rSet, setF_eq_of_getF r.fields f v h]

@[simp] theorem rSet_id (r : Rec) (f : String) (v : Value) : (rSet r f v).id = r.id := rfl
@[simp] theorem rSet_type (r : Rec) (f : String) (v : Value) : (rSet r f v).type = r.type := rfl
@[simp] theorem rDel_id (r : Rec) (f : String) : (rDel r f).id = r.id := rfl
@[simp] theorem rDel_type (r : Rec) (f : String) : (rDel r f).type = r.type := rfl

theorem setFirst_length (p : Rec → Bool) (g : Rec → Rec) (l : List Rec) :
    (setFirst p g l).length = l.length := by
  induction l with
  | nil => rfl
  | cons x xs ih =>
    by_cases h : p x <;> simp [setFirst, h, ih]

theorem setFirst_getD_ne (p : Rec → Bool) (g : Rec → Rec) (l : List Rec) :
    ∀ i, i ≠ l.findIdx p → (setFirst p g l).getD i dRec = l.getD i dRec := by
  induction l with
  | nil => intro i _; rfl
  | cons x xs ih =>
    intro i hi
    by_cases h : p x
    · have hfi : (x :: xs).findIdx p = 0 := by simp [List.findIdx_cons, h]
      rw [hfi] at hi
      match i with
      | 0 => exact absurd rfl hi
      | j + 1 => simp [setFirst, h]
    · have hfi : (x :: xs).findIdx p = xs.findIdx p + 1 := by
        simp [List.findIdx_cons, h]
      rw [hfi] at hi
      match i with
      | 0 => simp [setFirst, h]
      | j + 1 =>
        have hj : j ≠ xs.findIdx p := by
          intro hc; exact hi (by rw [hc])
        simp only [setFirst, if_neg h, List.getD_cons_succ]
        exact ih j hj

theorem findIdx_lt_length_of_find? (p : Rec → Bool) (l : List Rec) (x : Rec)
    (h : l.find? p = some x) :
    l.findIdx p < l.length ∧ l.getD (l.findIdx p) dRec = x ∧ p x = true := by
  induction l with
  | nil => simp [List.find?] at h
  | cons a xs ih =>
    by_cases ha : p a
    · rw [List.find?_cons_of_pos _ ha] at h
      cases h
      refine ⟨by simp [List.findIdx_cons, ha], ?_, ha⟩
      simp [List.findIdx_cons, ha]
    · rw [List.find?_cons_of_neg _ (by simpa using ha)] at h
      obtain ⟨h1, h2, h3⟩ := ih h
      refine ⟨?_, ?_, h3⟩
      · simpa [List.findIdx_cons, ha] using Nat.succ_lt_succ h1
      · simpa [List.findIdx_cons, ha] using h2

theorem findIdx_map_pres (p : Rec → Bool) (cf : Rec → Rec) (l : List Rec)
    (hpres : ∀ r, p (cf r) = p r) :
    (l.map cf).findIdx p = l.findIdx p := by
  induction l with
  | nil => rfl
  | cons x xs ih =>
    by_cases h : p x <;>
      simp [List.findIdx_cons, hpres, h, ih]

theorem getD_map_lt (cf : Rec → Rec) (l : List Rec) :
    ∀ i, i < l.length → (l.map cf).getD i dRec = cf (l.getD i dRec) := by
  induction l with
  | nil => intro i hi; simp at hi
  | cons x xs ih =>
    intro i hi
    match i with
    | 0 => rfl
    | j + 1 => simpa using ih j (by simpa using hi)

theorem find?_map_of_pres (p : Rec → Bool) (cf : Rec → Rec) (l : List Rec) (x : Rec)
    (hpres : ∀ r, p (cf r) = p r) (h : l.find? p = some x) :
    (l.map cf).find? p = some (cf x) := by
  induction l with
  | nil => simp [List.find?] at h
  | cons a xs ih =>
    by_cases ha : p a
    · rw [List.find?_cons_of_pos _ ha] at h
      cases h
      simpa [List.find?_cons_of_pos] using
        List.find?_cons_of_pos (l := xs.map cf) (by simpa [hpres] using ha)
    · rw [List.find?_cons_of_neg _ (by simpa using ha)] at h
      rw [List.map_cons, List.find?_cons_of_neg _ (by simpa [hpres] using ha)]
      exact ih h

theorem find?_setFirst (p : Rec → Bool) (g : Rec → Rec) (l : List Rec) (x : Rec)
    (hpres : ∀ r, p (g r) = p r) (h : l.find? p = some x) :
    (setFirst p g l).find? p = some (g x) := by
  induction l with
  | nil => simp [List.find?] at h
  | cons a xs ih =>
    by_cases ha : p a
    · rw [List.find?_cons_of_pos _ ha] at h
      cases h
      simp only [setFirst, if_pos ha]
      exact List.find?_cons_of_pos _ (by simpa [hpres] using ha)
    · rw [List.find?_cons_of_neg _ (by simpa using ha)] at h
      simp only [setFirst, if_neg ha]
      rw [List.find?_cons_of_neg _ (by simpa using ha)]
      exact ih h

theorem setFirst_setFirst (p : Rec → Bool) (g1 g2 : Rec → Rec) (l : List Rec)
    (hpres : ∀ r, p (g1 r) = p r) :
    setFirst p g2 (setFirst p g1 l) = setFirst p (fun r => g2 (g1 r)) l := by
  induction l with
  | nil => rfl
  | cons x xs ih =>
    by_cases h : p x
    · simp [setFirst, h, hpres]
    · simp [setFirst, h, ih]

theorem setFirst_eq_self (p : Rec → Bool) (g : Rec → Rec) (l : List Rec)
    (h : ∀ x, l.find? p = some x → g x = x) :
    setFirst p g l = l := by
  induction l with
  | nil => rfl
  | cons x xs ih =>
    by_cases hx : p x
    · have hg : g x = x := h x (List.find?_cons_of_pos _ hx)
      simp [setFirst, hx, hg]
    · have h' : ∀ y, xs.find? p = some y → g y = y := by
        intro y hy
        exact h y (by rwa [List.find?_cons_of_neg _ (by simpa using hx)])
      simp [setFirst, hx, ih h']

theorem mem_setFirst (p : Rec → Bool) (g : Rec → Rec) (l : List Rec) :
    ∀ x ∈ setFirst p g l, x ∈ l ∨ ∃ y ∈ l, p y = true ∧ x = g y := by
  induction l with
  | nil => intro x hx; simp [setFirst] at hx
  | cons a xs ih =>
    intro x hx
    by_cases ha : p a
    · simp only [setFirst, if_pos ha, List.mem_cons] at hx
      rcases hx with hx | hx
      · exact Or.inr ⟨a, by simp, ha, hx⟩
      · exact Or.inl (by simp [hx])
    · simp only [setFirst, if_neg ha, List.mem_cons] at hx
      rcases hx with hx | hx
      · exact Or.inl (by simp [hx])
      · rcases ih x hx with h1 | ⟨y, hy, hpy, hxy⟩
        · exact Or.inl (by simp [h1])
        · exact Or.inr ⟨y, by simp [hy], hpy, hxy⟩


/-- Any `find?` hit splits the list into a miss-prefix, the hit, and a tail. -/
theorem find?_split (p : Rec → Bool) (l : List Rec) (x : Rec)
    (h : l.find? p = some x) :
    ∃ l1 l2, l = l1 ++ x :: l2 ∧ ∀ y ∈ l1, p y = false := by
  induction l with
  | nil => simp [List.find?] at h
  | cons a as ih =>
    by_cases ha : p a
    · rw [List.find?_cons_of_pos _ ha] at h
      cases h
      exact ⟨[], as, rfl, by simp⟩
    · rw [List.find?_cons_of_neg _ (by simpa using ha)] at h
      obtain ⟨l1, l2, hsplit, hmiss⟩ := ih h
      refine ⟨a :: l1, l2, by simp [hsplit], ?_⟩
      intro y hy
      rcases List.mem_cons.mp hy with hy | hy
      · simpa [hy] using ha
      · exact hmiss y hy

/-- Claim C2 (code-bug evidence): on a record with a scalar-valued
`manyToOne` field `owner = "b"` and an array-valued `oneToMany` field
`kids = ["c"]`, the `relationships` root query emits no pair at all for
`owner` and a single pair whose target is the entire stored array for
`kids`, because the resolver treats `manyToMany || manyToOne` (not
`manyToMany || oneToMany`) as the array-expansion case, contradicting the
claimed one-pair-per-stored-identifier behaviour. -/
theorem relationshipsResolve_swapped_cardinalities :
    relationshipsResolve relSchema relStore = [("a", Value.arr ["c"])] := rfl

/-- Claim C4 (counterexample): with two records sharing id "x",
`delete<Type>("x")` removes both (the later duplicate `dupB` does not stay in
the store, contradicting the claim), returns the first, and notifies once. -/
theorem deleteMutation_removes_later_duplicate :
    deleteMutation [dupA, dupB] "x" = ⟨[], some dupA, 1⟩ ∧ dupB ≠ dupA :=
  ⟨rfl, by decide⟩

/-- Claim C4 (amended): `delete<Type>(id)` removes every record whose id
matches (keeping the rest in order), returns the first record with the id or
`undefined`, and emits exactly one change notification; when no record
matches, the store is untouched. -/
theorem deleteMutation_spec (store : List Rec) (id : String) :
    (deleteMutation store id).notifs = 1
    ∧ (deleteMutation store id).returned = findRec store id
    ∧ (deleteMutation store id).records.Sublist store
    ∧ (∀ r ∈ (deleteMutation store id).records, r.id ≠ id)
    ∧ (∀ r ∈ store, r.id ≠ id → r ∈ (deleteMutation store id).records)
    ∧ (findRec store id = none → (deleteMutation store id).records = store) := by
  refine ⟨rfl, rfl, List.filter_sublist _, ?_, ?_, ?_⟩
  · intro r hr
    have h := (List.mem_filter.mp hr).2
    simpa using h
  · intro r hr h
    exact List.mem_filter.mpr ⟨hr, by simpa using h⟩
  · intro h
    have h' := List.find?_eq_none.mp h
    apply List.filter_eq_self.mpr
    intro r hr
    have := h' r hr
    simpa [byId] using this

/-- Claim C4 (witness): deleting a missing id leaves the store unchanged. -/
theorem deleteMutation_spec_witness :
    (deleteMutation [dupA] "zz").records = [dupA] :=
  (deleteMutation_spec [dupA] "zz").2.2.2.2.2 (by rfl)

/-- Claim C5 (counterexample): a to-many foreign key holding only the
dangling identifier "missing" resolves to `[none]` — the dangling entry is
kept as an `undefined`/null placeholder, not silently dropped. -/
theorem resolveFKMany_null_placeholder :
    resolveFKMany [danglingRec] danglingRec "members" = [none]
    ∧ resolveFKMany [danglingRec] danglingRec "members" ≠ [] :=
  ⟨rfl, by decide⟩

/-- Claim C5 (amended): a to-many foreign key resolves to a list of the same
length as the stored identifier array, with `none` (JS `undefined`,
serialized as null) at every dangling position; a to-one foreign key whose
value matches no record's id resolves to `none`. -/
theorem resolveFK_dangling (store : List Rec) (r : Rec) (f : String) :
    (∀ xs, rGet r f = some (.arr xs) →
      (resolveFKMany store r f).length = xs.length
      ∧ ∀ (i : Nat) (x : String), xs[i]? = some x → (∀ r' ∈ store, r'.id ≠ x) →
          (resolveFKMany store r f)[i]? = some (none : Option Rec))
    ∧ ((∀ r' ∈ store, rGet r f ≠ some (.str r'.id)) →
        resolveFKOne store r f = none) := by
  constructor
  · intro xs h
    constructor
    · simp [resolveFKMany, h]
    · intro i x hx hdangle
      have hnone : store.find? (fun r' => decide (r'.id = x)) = none := by
        apply List.find?_eq_none.mpr
        intro r' hr'
        simpa using hdangle r' hr'
      simp [resolveFKMany, h, List.getElem?_map, hx, hnone]
  · intro h
    apply List.find?_eq_none.mpr
    intro r' hr'
    simpa using h r' hr'

/-- Claim C5 (witness): the dangling position of a concrete to-many field
resolves to a null placeholder. -/
theorem resolveFK_dangling_witness :
    (resolveFKMany [] danglingRec "members")[0]? = some none :=
  ((resolveFK_dangling [] danglingRec "members").1 ["missing"] rfl).2 0 "missing" rfl
    (by intro r' hr'; simp at hr')

/-- Claim C6 (counterexample): with only a record of type "B" in the store,
the singular query resolver for type "A" returns that record (the resolver
never consults the type tag), where the claimed behaviour — the first record
matching both type "A" and the id — would return null. -/
theorem singularResolve_wrong_type :
    singularResolve [wrongType] "x" = some wrongType
    ∧ singularResolveSpec "A" [wrongType] "x" = none
    ∧ wrongType.type ≠ "A" :=
  ⟨rfl, rfl, by decide⟩

/-- Claim C6 (amended): the singular root query returns the first record in
the store with the given id — regardless of its type tag — or null when no
record has that id. -/
theorem singularResolve_spec_theorem (store : List Rec) (id : String) :
    (∀ r, singularResolve store id = some r →
      r.id = id ∧ ∃ l1 l2, store = l1 ++ r :: l2 ∧ ∀ y ∈ l1, y.id ≠ id)
    ∧ (singularResolve store id = none ↔ ∀ r ∈ store, r.id ≠ id) := by
  constructor
  · intro r h
    have hid : r.id = id := by
      have := List.find?_some h
      simpa using this
    obtain ⟨l1, l2, hsplit, hmiss⟩ := find?_split _ _ _ h
    refine ⟨hid, l1, l2, hsplit, ?_⟩
    intro y hy
    have := hmiss y hy
    simpa using this
  · constructor
    · intro h r hr
      have := List.find?_eq_none.mp h r hr
      simpa using this
    · intro h
      apply List.find?_eq_none.mpr
      intro r hr
      simpa using h r hr

/-- Claim C6 (witness): the record returned on the concrete store indeed has
the queried id. -/
theorem singularResolve_spec_witness : wrongType.id = "x" :=
  ((singularResolve_spec_theorem [wrongType] "x").1 wrongType rfl).1

/-- Claim C7 (counterexample): the single-source inverse of a `manyToOne`
foreign key resolves to a two-element list (not a single node or null), and
the single-source inverse of a `oneToMany` foreign key resolves to a single
optional node (not a list) — the claim's cardinality groupings are swapped. -/
theorem resolveInverseSingle_manyToOne_list :
    resolveInverseSingle .manyToOne [holder1, holder2] "lineManager" "t"
      = .list [holder1, holder2]
    ∧ resolveInverseSingle .oneToMany [holder1, holder2] "lineManager" "t"
      = .single none :=
  ⟨rfl, rfl⟩

/-- Claim C7 (amended): a single-source Inverse field resolves to a single
node or null when the source foreign key's cardinality is `oneToOne` or
`oneToMany`, and to a list when it is `manyToOne` or `manyToMany`; the
`manyToOne` list collects every record whose field equals the id, and the
`oneToOne` single node (when present) has its field equal to the id. -/
theorem resolveInverseSingle_shape_spec (records : List Rec) (f id : String) :
    (∃ o, resolveInverseSingle .oneToOne records f id = .single o)
    ∧ (∃ o, resolveInverseSingle .oneToMany records f id = .single o)
    ∧ (∃ l, resolveInverseSingle .manyToOne records f id = .list l)
    ∧ (∃ l, resolveInverseSingle .manyToMany records f id = .list l)
    ∧ (∀ l, resolveInverseSingle .manyToOne records f id = .list l →
        ∀ r ∈ l, rGet r f = some (.str id))
    ∧ (∀ r, resolveInverseSingle .oneToOne records f id = .single (some r) →
        rGet r f = some (.str id)) := by
  refine ⟨⟨_, rfl⟩, ⟨_, rfl⟩, ⟨_, rfl⟩, ⟨_, rfl⟩, ?_, ?_⟩
  · intro l hl r hr
    have hl' : resolveInverseManyToOne records f id = l := by
      cases hl; rfl
    rw [← hl'] at hr
    have := (List.mem_filter.mp hr).2
    simpa using this
  · intro r h
    have h' : resolveInverseOneToOne records f id = some r := by
      cases h' : resolveInverseOneToOne records f id with
      | none => rw [resolveInverseSingle] at h; rw [h'] at h; cases h
      | some x => rw [resolveInverseSingle] at h; rw [h'] at h; cases h; rfl
    have := List.find?_some h'
    simpa using this

/-- Claim C7 (witness): a member of the concrete `manyToOne` inverse list
points at the queried id. -/
theorem resolveInverseSingle_shape_witness :
    rGet holder1 "lineManager" = some (Value.str "t") :=
  (resolveInverseSingle_shape_spec [holder1, holder2] "lineManager" "t").2.2.2.2.1
    [holder1, holder2] rfl holder1 (by simp)

theorem rSet_rSet (r : Rec) (f : String) (v v' : Value) :
    rSet (rSet r f v) f v' = rSet r f v' := by
  simp [rSet, setF_setF]

theorem rDel_rSet_of_none (r : Rec) (f : String) (v : Value)
    (h : rGet r f = none) : rDel (rSet r f v) f = r := by
  cases r with
  | mk ty id fs =>
    simp only [rGet] at h
    simp [rDel, rSet, delF_setF_of_getF_none _ _ _ h]

theorem curArr_rSet_self (r : Rec) (f : String) (xs : List String) :
    curArr (rSet r f (.arr xs)) f = xs := by
  simp [curArr, rGet_rSet_self]

/-- Claim C9 (counterexample): removing a target that is not the current
value of a `manyToOne` field deletes the field anyway (the stored value "x"
is lost when removing "t"), and removing from an absent to-many field
replaces it with the empty array — in both cases the field's value changes
even though the target was not present. -/
theorem removeRelationship_mutates_on_absent_target :
    removeRelationship schemaR [srcX] "lineManager" "s" "t"
      = .ok ⟨[⟨"Role", "s", []⟩], some ⟨"Role", "s", []⟩, 1⟩
    ∧ rGet srcX "lineManager" = some (Value.str "x")
    ∧ removeRelationship schemaR [⟨"Role", "s2", []⟩] "teams" "s2" "t"
      = .ok ⟨[⟨"Role", "s2", [("teams", Value.arr [])]⟩],
             some ⟨"Role", "s2", [("teams", Value.arr [])]⟩, 1⟩
    ∧ rGet (⟨"Role", "s2", []⟩ : Rec) "teams" = none :=
  ⟨rfl, rfl, rfl, rfl⟩

/-- Claim C9 (amended): `removeRelationship` always emits exactly one change
notification; for a to-many cardinality whose field already holds an array
not containing the target, the store is left completely unchanged; for a
to-one cardinality the source's field is cleared unconditionally, whatever
its previous value. -/
theorem removeRelationship_spec (schema : Schema) (store : List Rec)
    (field src tgt : String) (sr : Rec) (hsr : findRec store src = some sr) :
    (∀ c xs, lookupFieldSpec schema sr.type field = some (.foreignKey c) →
      (c = .manyToMany ∨ c = .oneToMany) → rGet sr field = some (.arr xs) →
      tgt ∉ xs →
      removeRelationship schema store field src tgt = .ok ⟨store, some sr, 1⟩)
    ∧ (∀ c, lookupFieldSpec schema sr.type field = some (.foreignKey c) →
      (c = .oneToOne ∨ c = .manyToOne) →
      ∃ res, removeRelationship schema store field src tgt = .ok res
        ∧ res.notifs = 1
        ∧ ∀ r, res.returned = some r → rGet r field = none) := by
  constructor
  · intro c xs hspec hc hval htgt
    have hfix : setFirst (byId src)
        (fun r => rSet r field (.arr ((curArr r field).filter
          (fun x => decide (x ≠ tgt))))) store = store := by
      apply setFirst_eq_self
      intro x hx
      have hx' : x = sr := by
        have : some x = some sr := by rw [← hx]; exact hsr
        exact Option.some.inj this
      subst hx'
      have hcur : curArr x field = xs := by simp [curArr, hval]
      have hfilter : xs.filter (fun a => decide (a ≠ tgt)) = xs := by
        apply List.filter_eq_self.mpr
        intro a ha
        simpa using ne_of_mem_of_not_mem ha htgt
      rw [hcur, hfilter]
      exact rSet_eq_of_rGet x field (.arr xs) hval
    simp only [removeRelationship, hsr]
    rw [hspec]
    simp only [if_pos hc]
    rw [hfix, hsr]
  · intro c hspec hc
    have hcond : ¬(c = .manyToMany ∨ c = .oneToMany) := by
      rcases hc with h | h <;> subst h <;> decide
    have hfind : (setFirst (byId src) (fun r => rDel r field) store).find?
        (byId src) = some (rDel sr field) := by
      apply find?_setFirst
      · intro r; simp [byId]
      · exact hsr
    refine ⟨⟨setFirst (byId src) (fun r => rDel r field) store,
            some (rDel sr field), 1⟩, ?_, rfl, ?_⟩
    · simp only [removeRelationship, hsr]
      rw [hspec]
      simp only [if_neg hcond]
      rw [show findRec (setFirst (byId src) (fun r => rDel r field) store) src
            = some (rDel sr field) from hfind]
    · intro r hr
      have : r = rDel sr field := (Option.some.inj hr).symm
      subst this
      exact rGet_rDel_self sr field

/-- Claim C9 (witness): removing an absent target from a concrete
`manyToMany` field leaves the store unchanged while still notifying once. -/
theorem removeRelationship_spec_witness :
    removeRelationship schemaR [mmRec] "teams" "m" "zz"
      = .ok ⟨[mmRec], some mmRec, 1⟩ :=
  (removeRelationship_spec schemaR [mmRec] "teams" "m" "zz" mmRec rfl).1
    .manyToMany ["t"] rfl (Or.inl rfl) rfl (by decide)

/-- Claim C3 (counterexample): for a `manyToOne` field holding "x", adding
"t2" and then removing it leaves the field deleted rather than restoring
"x"; for a `manyToMany` field already containing "t", adding "t" (a no-op)
and then removing it leaves the array empty rather than restoring ["t"]. -/
theorem addRemove_changes_field :
    addRelationship schemaR [srcX] "lineManager" "s" "t2"
      = .ok ⟨[⟨"Role", "s", [("lineManager", Value.str "t2")]⟩],
             some ⟨"Role", "s", [("lineManager", Value.str "t2")]⟩, 1⟩
    ∧ removeRelationship schemaR [⟨"Role", "s", [("lineManager", Value.str "t2")]⟩]
        "lineManager" "s" "t2"
      = .ok ⟨[⟨"Role", "s", []⟩], some ⟨"Role", "s", []⟩, 1⟩
    ∧ rGet srcX "lineManager" ≠ rGet (⟨"Role", "s", []⟩ : Rec) "lineManager"
    ∧ addRelationship schemaR [mmRec] "teams" "m" "t" = .ok ⟨[mmRec], some mmRec, 1⟩
    ∧ removeRelationship schemaR [mmRec] "teams" "m" "t"
      = .ok ⟨[⟨"Role", "m", [("teams", Value.arr [])]⟩],
             some ⟨"Role", "m", [("teams", Value.arr [])]⟩, 1⟩
    ∧ rGet mmRec "teams" ≠ rGet (⟨"Role", "m", [("teams", Value.arr [])]⟩ : Rec) "teams" :=
  ⟨rfl, rfl, by decide, rfl, rfl, by decide⟩

/-- Claim C3 (amended): `addRelationship` followed by `removeRelationship`
with the same arguments restores the store exactly, provided the source's
field held an array without the target (`manyToMany`) or was absent
(`manyToOne`) before the add. -/
theorem addRemove_roundtrip (schema : Schema) (store : List Rec)
    (field src tgt : String) (sr : Rec) (hsr : findRec store src = some sr) :
    (∀ xs res, lookupFieldSpec schema sr.type field = some (.foreignKey .manyToMany) →
      rGet sr field = some (.arr xs) → tgt ∉ xs →
      addRelationship schema store field src tgt = .ok res →
      removeRelationship schema res.records field src tgt = .ok ⟨store, some sr, 1⟩)
    ∧ (∀ res, lookupFieldSpec schema sr.type field = some (.foreignKey .manyToOne) →
      rGet sr field = none →
      addRelationship schema store field src tgt = .ok res →
      removeRelationship schema res.records field src tgt = .ok ⟨store, some sr, 1⟩) := by
  constructor
  · intro xs res hspec hval htgt hadd
    have hpres : ∀ r, byId src (rSet r field
        (Value.arr (if tgt ∈ curArr r field then curArr r field
               else curArr r field ++ [tgt]))) = byId src r := by
      intro r; simp [byId]
    simp only [addRelationship, hsr] at hadd
    rw [hspec] at hadd
    simp at hadd
    subst hadd
    have hfind2 : findRec (setFirst (byId src)
        (fun r => rSet r field (Value.arr (if tgt ∈ curArr r field
          then curArr r field else curArr r field ++ [tgt]))) store) src
        = some (rSet sr field (Value.arr (if tgt ∈ curArr sr field
          then curArr sr field else curArr sr field ++ [tgt]))) :=
      find?_setFirst _ _ _ _ hpres hsr
    simp only [removeRelationship, hfind2, rSet_type]
    rw [hspec]
    simp only [reduceCtorEq, or_false, reduceIte, or_true, if_true]
    rw [setFirst_setFirst _ _ _ _ hpres]
    have hfix : setFirst (byId src) (fun r =>
        rSet (rSet r field (Value.arr (if tgt ∈ curArr r field
          then curArr r field else curArr r field ++ [tgt]))) field
          (Value.arr ((curArr (rSet r field (Value.arr (if tgt ∈ curArr r field
            then curArr r field else curArr r field ++ [tgt]))) field).filter
            (fun x => decide (x ≠ tgt))))) store = store := by
      apply setFirst_eq_self
      intro x hx
      have hx' : x = sr := Option.some.inj (hx ▸ hsr)
      subst hx'
      have hcur : curArr x field = xs := by simp [curArr, hval]
      rw [hcur, if_neg htgt, curArr_rSet_self]
      have hfilter : (xs ++ [tgt]).filter (fun a => decide (a ≠ tgt)) = xs := by
        rw [List.filter_append]
        have h1 : xs.filter (fun a => decide (a ≠ tgt)) = xs := by
          apply List.filter_eq_self.mpr
          intro a ha
          simpa using ne_of_mem_of_not_mem ha htgt
        have h2 : [tgt].filter (fun a => decide (a ≠ tgt)) = [] := by simp
        rw [h1, h2, List.append_nil]
      rw [hfilter, rSet_rSet]
      exact rSet_eq_of_rGet x field (Value.arr xs) hval
    rw [hfix, hsr]
  · intro res hspec hval hadd
    have hpres : ∀ r, byId src (rSet r field (Value.str tgt)) = byId src r := by
      intro r; simp [byId]
    simp only [addRelationship, hsr] at hadd
    rw [hspec] at hadd
    simp at hadd
    subst hadd
    have hfind2 : findRec (setFirst (byId src)
        (fun r => rSet r field (Value.str tgt)) store) src
        = some (rSet sr field (Value.str tgt)) :=
      find?_setFirst _ _ _ _ hpres hsr
    simp only [removeRelationship, hfind2, rSet_type]
    rw [hspec]
    simp only [reduceCtorEq, or_self, reduceIte, if_false]
    rw [setFirst_setFirst _ _ _ _ hpres]
    have hfix : setFirst (byId src)
        (fun r => rDel (rSet r field (Value.str tgt)) field) store = store := by
      apply setFirst_eq_self
      intro x hx
      have hx' : x = sr := Option.some.inj (hx ▸ hsr)
      subst hx'
      exact rDel_rSet_of_none x field (Value.str tgt) hval
    rw [hfix, hsr]

/-- Claim C3 (witness): on a concrete `manyToOne` field that was absent,
add-then-remove restores the one-record store exactly. -/
theorem addRemove_roundtrip_witness :
    removeRelationship schemaR
      [⟨"Role", "w", [("lineManager", Value.str "t")]⟩] "lineManager" "w" "t"
      = .ok ⟨[bareW], some bareW, 1⟩ :=
  (addRemove_roundtrip schemaR [bareW] "lineManager" "w" "t" bareW rfl).2
    ⟨[⟨"Role", "w", [("lineManager", Value.str "t")]⟩],
     some ⟨"Role", "w", [("lineManager", Value.str "t")]⟩, 1⟩ rfl rfl rfl

theorem applyArgs_rGet_not_supplied (args : List (String × Value)) :
    ∀ (r : Rec) (k : String), (∀ kv ∈ args, kv.1 ≠ k) →
      rGet (applyArgs r args) k = rGet r k := by
  induction args with
  | nil => intro r k _; rfl
  | cons kv rest ih =>
    intro r k h
    have hk : kv.1 ≠ k := h kv (by simp)
    have hrest : ∀ kv' ∈ rest, kv'.1 ≠ k := by
      intro kv' hkv'
      exact h kv' (by simp [hkv'])
    show rGet (applyArgs (rSet r kv.1 kv.2) rest) k = rGet r k
    rw [ih (rSet r kv.1 kv.2) k hrest]
    exact getF_setF_ne r.fields kv.1 k kv.2 (Ne.symm hk)

theorem applyArgs_type_id (args : List (String × Value)) :
    ∀ r : Rec, (applyArgs r args).type = r.type ∧ (applyArgs r args).id = r.id := by
  induction args with
  | nil => intro r; exact ⟨rfl, rfl⟩
  | cons kv rest ih =>
    intro r
    show (applyArgs (rSet r kv.1 kv.2) rest).type = r.type
      ∧ (applyArgs (rSet r kv.1 kv.2) rest).id = r.id
    simpa using ih (rSet r kv.1 kv.2)

/-- Claim C8: `update<Type>(id, ...scalarFields)` with a missing id leaves the
store unchanged, still emits exactly one change notification and returns
`undefined`; with a matching id it overwrites only the supplied fields of the
first matching record in place (every other record, and every field not
supplied, is untouched), emits one notification and returns that record. -/
theorem updateMutation_spec (store : List Rec) (id : String)
    (args : List (String × Value)) :
    (updateMutation store id args).notifs = 1
    ∧ (findRec store id = none →
        (updateMutation store id args).records = store
        ∧ (updateMutation store id args).returned = none)
    ∧ (∀ sr, findRec store id = some sr →
        (updateMutation store id args).returned = some (applyArgs sr args)
        ∧ ∃ l1 l2, store = l1 ++ sr :: l2
            ∧ (updateMutation store id args).records = l1 ++ applyArgs sr args :: l2
            ∧ ∀ x ∈ l1, x.id ≠ id)
    ∧ (∀ (sr : Rec) (k : String), (∀ kv ∈ args, kv.1 ≠ k) →
        rGet (applyArgs sr args) k = rGet sr k)
    ∧ (∀ sr : Rec, (applyArgs sr args).type = sr.type
        ∧ (applyArgs sr args).id = sr.id) := by
  refine ⟨?_, ?_, ?_, ?_, ?_⟩
  · induction store with
    | nil => rfl
    | cons r rs ih =>
      by_cases hr : r.id = id <;> simp [updateMutation, hr]
  · induction store with
    | nil => intro h; exact ⟨rfl, rfl⟩
    | cons r rs ih =>
      intro h
      by_cases hr : r.id = id
      · exfalso
        have : findRec (r :: rs) id = some r :=
          List.find?_cons_of_pos _ (by simpa [byId] using hr)
        rw [this] at h; cases h
      · have hrest : findRec rs id = none := by
          have := h
          rwa [show findRec (r :: rs) id = findRec rs id from
            List.find?_cons_of_neg _ (by simpa [byId] using hr)] at this
        obtain ⟨h1, h2⟩ := ih hrest
        constructor
        · simp [updateMutation, hr, h1]
        · simp [updateMutation, hr, h2]
  · induction store with
    | nil => intro sr h; cases h
    | cons r rs ih =>
      intro sr h
      by_cases hr : r.id = id
      · have hsr : r = sr := by
          have : findRec (r :: rs) id = some r :=
            List.find?_cons_of_pos _ (by simpa [byId] using hr)
          rw [this] at h
          exact Option.some.inj h
        subst hsr
        refine ⟨by simp [updateMutation, hr], [], rs, rfl,
          by simp [updateMutation, hr], by simp⟩
      · have hrest : findRec rs id = some sr := by
          have := h
          rwa [show findRec (r :: rs) id = findRec rs id from
            List.find?_cons_of_neg _ (by simpa [byId] using hr)] at this
        obtain ⟨hret, l1, l2, hsplit, hrecs, hmiss⟩ := ih sr hrest
        refine ⟨by simpa [updateMutation, hr] using hret, r :: l1, l2,
          by simp [hsplit], by simp [updateMutation, hr, hrecs], ?_⟩
        intro x hx
        rcases List.mem_cons.mp hx with hx | hx
        · simpa [hx] using hr
        · exact hmiss x hx
  · intro sr k h
    exact applyArgs_rGet_not_supplied args sr k h
  · intro sr
    exact applyArgs_type_id args sr

/-- Claim C8 (witness): updating a missing id on a concrete store leaves it
unchanged and returns `undefined`. -/
theorem updateMutation_spec_witness :
    (updateMutation [srcX] "missing-id" [("name", Value.str "x")]).records = [srcX]
    ∧ (updateMutation [srcX] "missing-id" [("name", Value.str "x")]).returned = none :=
  (updateMutation_spec [srcX] "missing-id" [("name", Value.str "x")]).2.1 (by rfl)

theorem clearOneToOne_eq_map (ty field tgt : String) (l : List Rec) :
    clearOneToOne ty field tgt l
      = l.map (fun r =>
          if r.type = ty ∧ rGet r field = some (.str tgt) then rDel r field else r) :=
  rfl

theorem clearFun_pres (ty field tgt src : String) (r : Rec) :
    byId src (if r.type = ty ∧ rGet r field = some (.str tgt) then rDel r field else r)
      = byId src r := by
  by_cases h : r.type = ty ∧ rGet r field = some (.str tgt) <;> simp [h, byId]

theorem clearFun_not_holder (ty field tgt : String) (r : Rec) :
    ¬(((if r.type = ty ∧ rGet r field = some (.str tgt) then rDel r field else r)).type = ty
      ∧ rGet (if r.type = ty ∧ rGet r field = some (.str tgt) then rDel r field else r)
          field = some (Value.str tgt)) := by
  by_cases h : r.type = ty ∧ rGet r field = some (.str tgt)
  · simp only [if_pos h]
    intro hc
    rw [rGet_rDel_self] at hc
    cases hc.2
  · simp only [if_neg h]
    exact h

theorem c1_count_aux (ty field tgt src : String) :
    ∀ (l : List Rec) (x : Rec), l.find? (byId src) = some x → x.type = ty →
    ((setFirst (byId src) (fun r => rSet r field (Value.str tgt))
        (clearOneToOne ty field tgt l)).countP
      (fun r => decide (r.type = ty ∧ rGet r field = some (Value.str tgt)))) = 1 := by
  intro l
  induction l with
  | nil => intro x hx _; simp [List.find?] at hx
  | cons a as ih =>
    intro x hx hty
    have hmapcons : clearOneToOne ty field tgt (a :: as)
        = (if a.type = ty ∧ rGet a field = some (.str tgt) then rDel a field else a)
          :: clearOneToOne ty field tgt as := rfl
    by_cases ha : byId src a = true
    · rw [List.find?_cons_of_pos _ ha] at hx
      have hxa : x = a := (Option.some.inj hx).symm
      subst hxa
      rw [hmapcons]
      rw [show setFirst (byId src) (fun r => rSet r field (Value.str tgt))
          ((if x.type = ty ∧ rGet x field = some (.str tgt) then rDel x field else x)
            :: clearOneToOne ty field tgt as)
        = rSet (if x.type = ty ∧ rGet x field = some (.str tgt) then rDel x field else x)
            field (Value.str tgt) :: clearOneToOne ty field tgt as from by
          simp [setFirst, clearFun_pres ty field tgt src x, ha]]
      rw [List.countP_cons_of_pos]
      · have hzero : (clearOneToOne ty field tgt as).countP
            (fun r => decide (r.type = ty ∧ rGet r field = some (Value.str tgt))) = 0 := by
          apply List.countP_eq_zero.mpr
          intro b hb
          rw [clearOneToOne_eq_map] at hb
          obtain ⟨z, _, hz⟩ := List.mem_map.mp hb
          subst hz
          simpa using clearFun_not_holder ty field tgt z
        rw [hzero]
      · have h1 : (if x.type = ty ∧ rGet x field = some (.str tgt)
            then rDel x field else x).type = ty := by
          by_cases h : x.type = ty ∧ rGet x field = some (.str tgt)
          · rw [if_pos h, rDel_type]; exact hty
          · rw [if_neg h]; exact hty
        have h2 : rGet (rSet (if x.type = ty ∧ rGet x field = some (.str tgt)
            then rDel x field else x) field (Value.str tgt)) field
            = some (Value.str tgt) := rGet_rSet_self _ _ _
        simp [h1, h2]
    · rw [List.find?_cons_of_neg _ (by simpa using ha)] at hx
      rw [hmapcons]
      rw [show setFirst (byId src) (fun r => rSet r field (Value.str tgt))
          ((if a.type = ty ∧ rGet a field = some (.str tgt) then rDel a field else a)
            :: clearOneToOne ty field tgt as)
        = (if a.type = ty ∧ rGet a field = some (.str tgt) then rDel a field else a)
          :: setFirst (byId src) (fun r => rSet r field (Value.str tgt))
              (clearOneToOne ty field tgt as) from by
          have := clearFun_pres ty field tgt src a
          simp only [setFirst]
          rw [this]
          simp [ha]]
      rw [List.countP_cons_of_neg]
      · exact ih x hx hty
      · simpa using clearFun_not_holder ty field tgt a

theorem c1_ids_aux (ty field tgt src : String) (l : List Rec) :
    ∀ r ∈ setFirst (byId src) (fun r => rSet r field (Value.str tgt))
        (clearOneToOne ty field tgt l),
      r.type = ty → rGet r field = some (Value.str tgt) → r.id = src := by
  intro r hr hty hval
  rcases mem_setFirst _ _ _ r hr with hmem | ⟨y, _, hpy, hry⟩
  · rw [clearOneToOne_eq_map] at hmem
    obtain ⟨z, _, hz⟩ := List.mem_map.mp hmem
    exact absurd ⟨hty, hval⟩ (hz ▸ clearFun_not_holder ty field tgt z)
  · subst hry
    have : y.id = src := by simpa [byId] using hpy
    simpa using this

/-- Claim C1: after a successful `addRelationship` on a `oneToOne` foreign
key, exactly one record of the source's type has the field equal to the
target — and every such record carries the source's id — while every other
record of that type that previously held the target (any prior holder) has
the field deleted; the store keeps its length. -/
theorem addRelationship_oneToOne_unique (schema : Schema) (store : List Rec)
    (field src tgt : String) (res : MutResult) (sr : Rec)
    (hres : addRelationship schema store field src tgt = .ok res)
    (hsr : findRec store src = some sr)
    (hspec : lookupFieldSpec schema sr.type field = some (.foreignKey .oneToOne)) :
    res.records.countP
      (fun r => decide (r.type = sr.type ∧ rGet r field = some (Value.str tgt))) = 1
    ∧ (∀ r ∈ res.records, r.type = sr.type → rGet r field = some (Value.str tgt) →
        r.id = src)
    ∧ res.records.length = store.length
    ∧ ∀ i, i ≠ store.findIdx (byId src) →
        (store.getD i dRec).type = sr.type →
        rGet (store.getD i dRec) field = some (Value.str tgt) →
        rGet (res.records.getD i dRec) field = none := by
  simp only [addRelationship, hsr] at hres
  rw [hspec] at hres
  simp at hres
  subst hres
  refine ⟨c1_count_aux sr.type field tgt src store sr hsr rfl,
    c1_ids_aux sr.type field tgt src store, ?_, ?_⟩
  · rw [setFirst_length, clearOneToOne_eq_map, List.length_map]
  · intro i hi hity hival
    by_cases hlen : i < store.length
    · have hidx : (clearOneToOne sr.type field tgt store).findIdx (byId src)
          = store.findIdx (byId src) := by
        rw [clearOneToOne_eq_map]
        exact findIdx_map_pres _ _ _ (clearFun_pres sr.type field tgt src)
      rw [setFirst_getD_ne _ _ _ i (by rw [hidx]; exact hi)]
      rw [clearOneToOne_eq_map, getD_map_lt _ _ i hlen]
      rw [if_pos ⟨hity, hival⟩]
      exact rGet_rDel_self _ _
    · exfalso
      have : store.getD i dRec = dRec :=
        List.getD_eq_default _ _ (Nat.le_of_not_lt hlen)
      rw [this] at hival
      simp [rGet, dRec, getF] at hival

/-- Claim C1 (witness): after reassigning the one-to-one field "holder" to
record "q", exactly one record of the type holds the target. -/
theorem addRelationship_oneToOne_unique_witness :
    (⟨[⟨"Role", "p", []⟩, ⟨"Role", "q", [("holder", Value.str "t")]⟩],
      some ⟨"Role", "q", [("holder", Value.str "t")]⟩, 1⟩ : MutResult).records.countP
      (fun r => decide (r.type = newSource.type
        ∧ rGet r "holder" = some (Value.str "t"))) = 1 :=
  (addRelationship_oneToOne_unique schemaR [prevHolder, newSource] "holder" "q" "t"
    ⟨[⟨"Role", "p", []⟩, ⟨"Role", "q", [("holder", Value.str "t")]⟩],
     some ⟨"Role", "q", [("holder", Value.str "t")]⟩, 1⟩ newSource rfl rfl rfl).1

/-- Claim C10 (counterexample): a fragment decoding to the JSON array
`[null]` makes `UrlPersistence.load` throw a TypeError (`typeof null` is
"object", so `isRecord` goes on to read `null.type`) instead of returning
the empty array as the claim states for shape-check failures. -/
theorem urlLoad_throws_on_null_element :
    UrlPersistence.load "abc" parseNullElem = .error () := by rfl

/-- Claim C10 (amended): `UrlPersistence.load` never returns null — an empty
fragment, a failed decode, a falsy decoded value or a shape check that
returns false all yield the empty array, and whenever `load` returns, its
(non-null) result replaces the configured initial records in the
constructor; the one exception is that a decoded array containing `null`
makes the shape check itself throw instead of returning. -/
theorem urlLoad_spec (hash0 : String) (parse : String → Option Json)
    (init : List Json) :
    (∀ v, UrlPersistence.load hash0 parse = .ok v → ∃ l, v = some l)
    ∧ ((trimStr hash0).length = 0 → UrlPersistence.load hash0 parse = .ok (some []))
    ∧ (parse (trimStr hash0) = none → UrlPersistence.load hash0 parse = .ok (some []))
    ∧ (∀ j, parse (trimStr hash0) = some j → truthyJson j = false →
        UrlPersistence.load hash0 parse = .ok (some []))
    ∧ (∀ j, parse (trimStr hash0) = some j → isRecordSet j = .ok false →
        UrlPersistence.load hash0 parse = .ok (some []))
    ∧ (∀ l, UrlPersistence.load hash0 parse = .ok (some l) →
        urlCtorRecords init hash0 parse = .ok l) := by
  have hload : UrlPersistence.load hash0 parse
      = match (if (trimStr hash0).length > 0 then parse (trimStr hash0) else none) with
        | none => .ok (some [])
        | some j =>
          if truthyJson j then
            match isRecordSet j with
            | .error e => .error e
            | .ok ok? =>
              if ok? then
                match j with
                | .arr xs => .ok (some xs)
                | _ => .ok (some [])
              else .ok (some [])
          else .ok (some []) := by
    simp only [UrlPersistence.load]
    rcases (if (trimStr hash0).length > 0 then parse (trimStr hash0) else none) with _ | j
    · rfl
    · dsimp only
      by_cases ht : truthyJson j
      · rw [if_pos ht, if_pos ht]
        rcases isRecordSet j with e | b
        · rfl
        · cases b
          · rfl
          · cases j <;> rfl
      · rw [if_neg ht, if_neg ht]
  refine ⟨?_, ?_, ?_, ?_, ?_, ?_⟩
  · intro v hv
    rw [hload] at hv
    rcases hif : (if (trimStr hash0).length > 0 then parse (trimStr hash0) else none)
      with _ | j <;> rw [hif] at hv
    · exact ⟨[], (Except.ok.inj hv).symm⟩
    · dsimp only at hv
      by_cases ht : truthyJson j
      · rw [if_pos ht] at hv
        rcases hrs : isRecordSet j with e | b <;> rw [hrs] at hv
        · cases hv
        · cases b
          · exact ⟨[], (Except.ok.inj hv).symm⟩
          · cases j with
            | arr xs =>
              simp only [if_pos] at hv
              exact ⟨xs, (Except.ok.inj hv).symm⟩
            | null => exact ⟨[], (Except.ok.inj hv).symm⟩
            | bool b => exact ⟨[], (Except.ok.inj hv).symm⟩
            | num n => exact ⟨[], (Except.ok.inj hv).symm⟩
            | str st => exact ⟨[], (Except.ok.inj hv).symm⟩
            | obj fs => exact ⟨[], (Except.ok.inj hv).symm⟩
      · rw [if_neg ht] at hv
        exact ⟨[], (Except.ok.inj hv).symm⟩
  · intro h
    rw [hload, if_neg (by omega)]
  · intro h
    rw [hload]
    rcases Nat.eq_zero_or_pos (trimStr hash0).length with hz | hz
    · rw [if_neg (by omega)]
    · rw [if_pos hz, h]
  · intro j hj ht
    rw [hload]
    rcases Nat.eq_zero_or_pos (trimStr hash0).length with hz | hz
    · rw [if_neg (by omega)]
    · rw [if_pos hz, hj]
      dsimp only
      simp only [ht, Bool.false_eq_true, if_false]
  · intro j hj hrs
    rw [hload]
    rcases Nat.eq_zero_or_pos (trimStr hash0).length with hz | hz
    · rw [if_neg (by omega)]
    · rw [if_pos hz, hj]
      dsimp only
      by_cases ht : truthyJson j
      · rw [if_pos ht, hrs]
        simp
      · rw [if_neg ht]
  · intro l hl
    unfold urlCtorRecords
    rw [hl]
    rfl

/-- Claim C10 (witness): a well-formed decoded payload replaces the
configured initial records in the constructor. -/
theorem urlLoad_spec_witness :
    urlCtorRecords [Json.null] "abc" parseRecords
      = .ok [Json.obj [("type", Json.str "T"), ("id", Json.str "a")]] :=
  (urlLoad_spec "abc" parseRecords [Json.null]).2.2.2.2.2
    [Json.obj [("type", Json.str "T"), ("id", Json.str "a")]] rfl
